import Mathlib

/-!
Verification development for the catalog-building script
`scripts/generate-index.cjs` of the `ha-awesome-copilot` repository.

The script scans five category directories, filters their immediate entries
to names ending in `.md`, parses each file's front matter with the
`gray-matter` library, builds one record per document with JS `||` defaults,
and writes the whole catalog to `index.json`, finally printing a one-line
summary with the total record count.

The embedding below mirrors that script statement by statement.  String
processing is carried out over `List Char` so that every definition reduces
inside the kernel.  File-system state is an explicit value, and JS
exceptions become `Except` values: a thrown exception aborts the run and no
output file is written, exactly as in Node's synchronous model.
-/

set_option maxRecDepth 100000

deriving instance DecidableEq for Except

namespace GenIndex

/-! ### Character-list string helpers -/

/-- Whitespace recognised by the header parser: space, tab, carriage return. -/
def isWS (c : Char) : Bool := c == ' ' || c == '\t' || c == '\r'

/-- Trim leading and trailing whitespace of a character list. -/
def trimCL (l : List Char) : List Char :=
  ((l.dropWhile isWS).reverse.dropWhile isWS).reverse

/-- Split a character list on a separator character; mirrors
`String.prototype.split` restricted to a single-character separator. -/
def splitChar (sep : Char) : List Char → List (List Char)
  | [] => [[]]
  | c :: cs =>
    if c == sep then [] :: splitChar sep cs
    else
      match splitChar sep cs with
      | [] => [[c]]
      | x :: xs => (c :: x) :: xs

/-- Join character lists with a separator character (inverse of `splitChar`). -/
def joinWith (sep : Char) : List (List Char) → List Char
  | [] => []
  | [x] => x
  | x :: y :: xs => x ++ sep :: joinWith sep (y :: xs)

/-- JS `s.endsWith(pat)`: exact, case-sensitive suffix test. -/
def jsEndsWith (s pat : String) : Bool :=
  pat.data.reverse.isPrefixOf s.data.reverse

/-- Replace the first occurrence of `pat` in a character list by nothing.
JS `s.replace(pat, '')` with a string pattern replaces only the first
occurrence. -/
def replaceFirstCL (pat : List Char) : List Char → List Char
  | [] => []
  | c :: cs =>
    if pat.isPrefixOf (c :: cs) then (c :: cs).drop pat.length
    else c :: replaceFirstCL pat cs

/-- JS `s.replace(pat, '')` for a string pattern: first occurrence only. -/
def jsReplaceFirst (s pat : String) : String :=
  String.mk (replaceFirstCL pat.data s.data)

/-! ### Metadata values and JS truthiness -/

/-- A front-matter value: a scalar string or a simple list of strings
(the two shapes §4.2 of the design admits). -/
inductive MValue where
  | str (s : String)
  | list (xs : List String)
deriving DecidableEq

/-- JS truthiness of a metadata value: the empty string is falsy, every
other string is truthy, and any array (even empty) is truthy. -/
def truthy : MValue → Bool
  | .str s => !(s == "")
  | .list _ => true

/-- Parsed front matter: a string-keyed association list, open schema. -/
abbrev Metadata := List (String × MValue)

/-- First-match association-list lookup (JS property access `data[k]`,
`none` playing the role of `undefined`). -/
def lookupKV (k : String) : List (String × α) → Option α
  | [] => none
  | p :: rest => if p.1 == k then some p.2 else lookupKV k rest

/-- JS `v || d`: the left operand when truthy, else the default. A missing
key (`undefined`) is falsy. -/
def jsOr (v : Option MValue) (d : MValue) : MValue :=
  match v with
  | some x => if truthy x then x else d
  | none => d

/-! ### Front-matter extraction

Modelled from the spec: the script calls `matter(content)` from the
`gray-matter` npm dependency, whose source is not part of this repository.
Per §4.2 of the design, the extractor recognises a header delimited by a
line of three hyphens at the very start and a matching closing line, parses
`key: value` lines (scalars and simple bracketed lists) into a string-keyed
mapping, and is tolerant: if the block is malformed — the closing marker is
missing or a line is unparseable — it degrades to an empty metadata mapping
for that file instead of failing.  Content with no header at all likewise
yields the empty mapping. -/

/-- Take the header lines strictly before the first closing `---` line;
`none` when no closing marker exists. -/
def takeUntilClose : List (List Char) → Option (List (List Char))
  | [] => none
  | l :: ls =>
    if l == ['-', '-', '-'] then some []
    else
      match takeUntilClose ls with
      | none => none
      | some r => some (l :: r)

/-- Parse a bracketed simple list value `[a, b, c]` (brackets already
checked by the caller). -/
def parseListVal (v : List Char) : MValue :=
  let inner := trimCL ((v.drop 1).dropLast)
  if inner.isEmpty then .list []
  else .list ((splitChar ',' inner).map (fun x => String.mk (trimCL x)))

/-- Parse one header line `key: value`; `none` when the line has no colon
or an empty key. -/
def parseLine (l : List Char) : Option (String × MValue) :=
  match splitChar ':' l with
  | [] => none
  | [_] => none
  | k :: vs =>
    let key := trimCL k
    if key.isEmpty then none
    else
      let v := trimCL (joinWith ':' vs)
      match v, v.getLast? with
      | '[' :: _, some ']' => some (String.mk key, parseListVal v)
      | _, _ => some (String.mk key, .str (String.mk v))

/-- Parse all header lines in order, skipping blank and `#` comment lines;
fails as a whole when any remaining line is unparseable. -/
def parseLines : List (List Char) → Option Metadata
  | [] => some []
  | l :: ls =>
    let t := trimCL l
    if t.isEmpty then parseLines ls
    else if t.head? == some '#' then parseLines ls
    else
      match parseLine l with
      | none => none
      | some kv =>
        match parseLines ls with
        | none => none
        | some rest => some (kv :: rest)

/-- Front-matter extraction (tolerant): content not starting with the
opening marker, or with a malformed header, yields the empty mapping. -/
def parseFrontMatter (content : String) : Metadata :=
  if ['-', '-', '-', '\n'].isPrefixOf content.data then
    match takeUntilClose (splitChar '\n' (content.data.drop 4)) with
    | none => []
    | some ls =>
      match parseLines ls with
      | some kvs => kvs
      | none => []
  else []

/-- A malformed header: the opening marker is present but either no closing
`---` line exists or some header line fails to parse. -/
def malformedHeader (content : String) : Bool :=
  ['-', '-', '-', '\n'].isPrefixOf content.data &&
    (match takeUntilClose (splitChar '\n' (content.data.drop 4)) with
     | none => true
     | some ls => (parseLines ls).isNone)

/-! ### The catalog record (the object pushed by the script) -/

/-- One emitted record; the eight fields pushed per document, in source
order. -/
structure CatalogRecord where
  title : MValue
  description : MValue
  filename : String
  link : String
  category : String
  author : MValue
  created : MValue
  tags : MValue
deriving DecidableEq

/-- Build one record from category, filename, parsed metadata and the
build date, mirroring the object literal in the `files.forEach` body:
`title: data.title || filename.replace('.md', '')`,
`description: data.description || 'No description provided'`,
`filename`, `link`, `category` from the loop variables,
`author: data.author || 'Unknown'`,
`created: data.created || <build date>`, `tags: data.tags || []`. -/
def mkRecord (category filename : String) (data : Metadata) (buildDate : String) :
    CatalogRecord where
  title := jsOr (lookupKV "title" data) (.str (jsReplaceFirst filename ".md"))
  description := jsOr (lookupKV "description" data) (.str "No description provided")
  filename := filename
  link := category ++ "/" ++ filename
  category := category
  author := jsOr (lookupKV "author" data) (.str "Unknown")
  created := jsOr (lookupKV "created" data) (.str buildDate)
  tags := jsOr (lookupKV "tags" data) (.list [])

/-! ### File-system model and the script pipeline -/

/-- An immediate directory entry: a readable file with its content, a
subdirectory, or a file the process cannot read (permissions / I/O fault). -/
inductive Entry where
  | file (content : String)
  | dir
  | unreadable
deriving DecidableEq

/-- The file system visible to the script: the directories of the working
tree, each with its immediate entries in filesystem enumeration order. -/
structure FS where
  dirs : List (String × List (String × Entry))
deriving DecidableEq

/-- The configured category list, in declaration order. -/
def categories : List String :=
  ["standards", "templates", "prompts", "reviews", "architecture"]

/-- JS `fs.readFileSync(path.join(dir, name), 'utf8')`: the content for a
readable file, a thrown error for a directory (`EISDIR`) or an unreadable
entry (`EACCES`). -/
def readFileSync (entries : List (String × Entry)) (name : String) :
    Except String String :=
  match lookupKV name entries with
  | some (.file c) => .ok c
  | some .dir => .error "EISDIR"
  | some .unreadable => .error "EACCES"
  | none => .error "ENOENT"

/-- Left-to-right effectful map over `Except`, aborting at the first error:
the semantics of the script's `forEach` bodies under thrown exceptions. -/
def mapExcept (f : α → Except ε β) : List α → Except ε (List β)
  | [] => .ok []
  | a :: as =>
    match f a with
    | .error e => .error e
    | .ok b =>
      match mapExcept f as with
      | .error e => .error e
      | .ok bs => .ok (b :: bs)

/-- The names the scanner selects in a directory:
`fs.readdirSync(categoryDir).filter(f => f.endsWith('.md'))`. -/
def selected (entries : List (String × Entry)) : List String :=
  (entries.map Prod.fst).filter (fun f => jsEndsWith f ".md")

/-- Process one selected filename: read it, extract front matter, build the
record (the body of the inner `files.forEach`). -/
def processFile (entries : List (String × Entry)) (category filename buildDate : String) :
    Except String CatalogRecord :=
  match readFileSync entries filename with
  | .error e => .error e
  | .ok content => .ok (mkRecord category filename (parseFrontMatter content) buildDate)

/-- Process one category: a missing directory yields the empty list
(`index[category] = []` with the `fs.existsSync` guard skipping the scan);
an existing one maps `processFile` over the selected names in order. -/
def processCategory (fs : FS) (buildDate category : String) :
    Except String (List CatalogRecord) :=
  match lookupKV category fs.dirs with
  | none => .ok []
  | some entries =>
    mapExcept (fun filename => processFile entries category filename buildDate)
      (selected entries)

/-- The accumulated catalog: category name to ordered record list, in
insertion order (JS object string keys keep insertion order). -/
abbrev Catalog := List (String × List CatalogRecord)

/-- Tag the result of a per-category computation with its category name
(the shape of one `index[category] = ...` assignment). -/
def pairup (g : String → Except ε γ) (c : String) : Except ε (String × γ) :=
  match g c with
  | .error e => .error e
  | .ok r => .ok (c, r)

/-- The full `categories.forEach` loop, producing the `index` object. -/
def buildIndex (fs : FS) (buildDate : String) : Except String Catalog :=
  mapExcept (pairup (processCategory fs buildDate)) categories

/-! ### Serialization (a faithful-in-content model of
`JSON.stringify(index, null, 2)`: byte-level layout is simplified to
single-line records and string escaping is omitted — no claim inspects
those bytes beyond equality — while every record field value appears in the
output string). -/

/-- Join strings with a separator. -/
def joinSep (sep : String) : List String → String
  | [] => ""
  | [x] => x
  | x :: y :: xs => x ++ sep ++ joinSep sep (y :: xs)

/-- Render a metadata value as JSON. -/
def serializeMValue : MValue → String
  | .str s => "\"" ++ s ++ "\""
  | .list xs => "[" ++ joinSep ", " (xs.map (fun s => "\"" ++ s ++ "\"")) ++ "]"

/-- Render one record as a JSON object. -/
def serializeRecord (r : CatalogRecord) : String :=
  "\x7b \"title\": " ++ serializeMValue r.title ++
    ", \"description\": " ++ serializeMValue r.description ++
    ", \"filename\": \"" ++ r.filename ++
    "\", \"link\": \"" ++ r.link ++
    "\", \"category\": \"" ++ r.category ++
    "\", \"author\": " ++ serializeMValue r.author ++
    ", \"created\": " ++ serializeMValue r.created ++
    ", \"tags\": " ++ serializeMValue r.tags ++ " \x7d"

/-- Render the whole catalog as a JSON object, keys in insertion order. -/
def serializeIndex (idx : Catalog) : String :=
  "\x7b\n" ++
    joinSep ",\n"
      (idx.map (fun p =>
        "  \"" ++ p.1 ++ "\": [" ++ joinSep ", " (p.2.map serializeRecord) ++ "]")) ++
    "\n\x7d"

/-- The whole run: build the index, then write `index.json` and print the
summary line `Generated index.json with N total items`, where `N` is
`Object.values(index).flat().length`.  An uncaught exception anywhere
before the write aborts the run with nothing written. -/
def runScript (fs : FS) (buildDate : String) : Except String (String × String) :=
  match buildIndex fs buildDate with
  | .error e => .error e
  | .ok index =>
    .ok (serializeIndex index,
      "Generated index.json with " ++
        toString ((index.map Prod.snd).flatten.length) ++ " total items")

/-- Success test for an `Except` result. -/
def exceptOk : Except ε α → Bool
  | .ok _ => true
  | .error _ => false

/-- The bytes of `index.json` after a run: written only when the run
reaches the final `fs.writeFileSync` (no partial output exists). -/
def writtenOutput (fs : FS) (buildDate : String) : Option String :=
  match runScript fs buildDate with
  | .ok (out, _) => some out
  | .error _ => none

/-- Test for a readable-file entry. -/
def entryIsFile : Entry → Bool
  | .file _ => true
  | _ => false

/-- Every entry everywhere on disk is a readable file. -/
def allReadableFiles (fs : FS) : Bool :=
  fs.dirs.all (fun p => p.2.all (fun e => entryIsFile e.2))

/-- Test that an optional directory entry is a readable file. -/
def isFileEntry : Option Entry → Bool
  | some (.file _) => true
  | _ => false

/-! ### General lemmas about the pipeline combinators -/

/-- A `lookupKV` result inherits any boolean invariant holding for every
value of the association list. -/
theorem lookupKV_all {α : Type} {q : α → Bool} {l : List (String × α)} {k : String} {v : α}
    (hall : l.all (fun p => q p.2) = true) (h : lookupKV k l = some v) : q v = true := by
  induction l with
  | nil => simp [lookupKV] at h
  | cons p rest ih =>
    simp only [List.all_cons, Bool.and_eq_true] at hall
    unfold lookupKV at h
    cases hpk : p.1 == k with
    | true =>
      rw [hpk] at h
      simp only [if_true] at h
      cases h
      exact hall.1
    | false =>
      rw [hpk] at h
      simp only [Bool.false_eq_true, if_false] at h
      exact ih hall.2 h

/-- A key occurring among the first components of an association list has a
`lookupKV` value. -/
theorem lookupKV_isSome_of_mem {α : Type} {l : List (String × α)} {k : String}
    (h : k ∈ l.map Prod.fst) : ∃ v, lookupKV k l = some v := by
  induction l with
  | nil => simp at h
  | cons p rest ih =>
    unfold lookupKV
    cases hpk : p.1 == k with
    | true => exact ⟨p.2, by simp⟩
    | false =>
      simp only [List.map_cons, List.mem_cons] at h
      cases h with
      | inl heq => rw [heq] at hpk; simp at hpk
      | inr hmem =>
        obtain ⟨v, hv⟩ := ih hmem
        exact ⟨v, by simp [hpk, hv]⟩

/-- A successful `mapExcept` run relates inputs and outputs pointwise. -/
theorem mapExcept_ok_forall2 {α β ε : Type} {f : α → Except ε β} {l : List α} {ys : List β}
    (h : mapExcept f l = .ok ys) : List.Forall₂ (fun a b => f a = .ok b) l ys := by
  induction l generalizing ys with
  | nil =>
    unfold mapExcept at h
    cases h
    exact List.Forall₂.nil
  | cons a as ih =>
    unfold mapExcept at h
    cases hfa : f a with
    | error e => rw [hfa] at h; exact absurd h (by simp)
    | ok b =>
      rw [hfa] at h
      cases hrec : mapExcept f as with
      | error e => rw [hrec] at h; exact absurd h (by simp)
      | ok bs =>
        rw [hrec] at h
        cases h
        exact List.Forall₂.cons hfa (ih hrec)

/-- When every element maps successfully, so does the whole list. -/
theorem mapExcept_ok_of_forall {α β ε : Type} {f : α → Except ε β} {l : List α}
    (h : ∀ a ∈ l, ∃ b, f a = .ok b) : ∃ ys, mapExcept f l = .ok ys := by
  induction l with
  | nil => exact ⟨[], rfl⟩
  | cons a as ih =>
    obtain ⟨b, hb⟩ := h a (by simp)
    obtain ⟨ys, hys⟩ := ih (fun x hx => h x (by simp [hx]))
    exact ⟨b :: ys, by unfold mapExcept; rw [hb, hys]⟩

/-- A successful `mapExcept` run has mapped every element successfully. -/
theorem mapExcept_mem_ok {α β ε : Type} {f : α → Except ε β} {l : List α} {ys : List β}
    (h : mapExcept f l = .ok ys) {a : α} (ha : a ∈ l) : ∃ b, f a = .ok b := by
  induction l generalizing ys with
  | nil => simp at ha
  | cons x xs ih =>
    unfold mapExcept at h
    cases hfx : f x with
    | error e => rw [hfx] at h; exact absurd h (by simp)
    | ok b =>
      rw [hfx] at h
      cases hrec : mapExcept f xs with
      | error e => rw [hrec] at h; exact absurd h (by simp)
      | ok bs =>
        cases List.mem_cons.mp ha with
        | inl heq => exact ⟨b, heq ▸ hfx⟩
        | inr hmem => exact ih hrec hmem

/-- Pointwise equal step functions give equal `mapExcept` runs. -/
theorem mapExcept_congr {α β ε : Type} {f g : α → Except ε β} {l : List α}
    (h : ∀ a ∈ l, f a = g a) : mapExcept f l = mapExcept g l := by
  induction l with
  | nil => rfl
  | cons a as ih =>
    unfold mapExcept
    rw [h a (by simp), ih (fun x hx => h x (by simp [hx]))]

/-- Recover the input list from a pointwise-successful run via a
left-inverse projection. -/
theorem map_eq_of_forall2 {α β : Type} {R : α → β → Prop} {g : β → α} {l : List α}
    {ys : List β} (hg : ∀ a b, R a b → g b = a) (h : List.Forall₂ R l ys) :
    ys.map g = l := by
  induction h with
  | nil => rfl
  | cons hab _ ih => simp only [List.map_cons, ih, hg _ _ hab]

/-- A successful `pairup` result carries its category name in the first
component. -/
theorem pairup_fst {ε γ : Type} {g : String → Except ε γ} {c : String} {b : String × γ}
    (h : pairup g c = .ok b) : b.1 = c := by
  unfold pairup at h
  cases hg : g c with
  | error e => rw [hg] at h; exact absurd h (by simp)
  | ok r => rw [hg] at h; cases h; rfl

/-- Looking a category up in a successful `pairup` run recovers the value
produced for that category. -/
theorem mapExcept_pairup_lookup {ε γ : Type} {g : String → Except ε γ} {cats : List String}
    {idx : List (String × γ)} (h : mapExcept (pairup g) cats = .ok idx) {c : String}
    (hc : c ∈ cats) : ∃ r, g c = .ok r ∧ lookupKV c idx = some r := by
  induction cats generalizing idx with
  | nil => simp at hc
  | cons c0 rest ih =>
    unfold mapExcept at h
    cases hp : pairup g c0 with
    | error e => rw [hp] at h; exact absurd h (by simp)
    | ok b =>
      rw [hp] at h
      cases hrec : mapExcept (pairup g) rest with
      | error e => rw [hrec] at h; exact absurd h (by simp)
      | ok bs =>
        rw [hrec] at h
        cases h
        have hfst : b.1 = c0 := pairup_fst hp
        cases hbeq : c0 == c with
        | true =>
          have hceq : c0 = c := by simpa using hbeq
          subst hceq
          refine ⟨b.2, ?_, ?_⟩
          · unfold pairup at hp
            cases hg : g c0 with
            | error e => rw [hg] at hp; exact absurd hp (by simp)
            | ok r => rw [hg] at hp; cases hp; rfl
          · unfold lookupKV
            rw [hfst]
            simp
        | false =>
          have hmem : c ∈ rest := by
            cases List.mem_cons.mp hc with
            | inl heq => rw [heq] at hbeq; simp at hbeq
            | inr hm => exact hm
          obtain ⟨r, hr, hl⟩ := ih hrec hmem
          refine ⟨r, hr, ?_⟩
          unfold lookupKV
          rw [hfst, hbeq]
          simpa using hl

/-! ### Lemmas about the script stages -/

/-- A successful read returns the content of a readable-file entry. -/
theorem readFileSync_ok {entries : List (String × Entry)} {fn content : String}
    (h : readFileSync entries fn = .ok content) :
    lookupKV fn entries = some (.file content) := by
  unfold readFileSync at h
  cases hl : lookupKV fn entries with
  | none => rw [hl] at h; exact absurd h (by simp)
  | some e =>
    rw [hl] at h
    cases e with
    | file c => cases h; rfl
    | dir => exact absurd h (by simp)
    | unreadable => exact absurd h (by simp)

/-- Every record a successful `processFile` produces carries the filename
it was built from. -/
theorem processFile_filename {entries : List (String × Entry)} {cat fn bd : String}
    {r : CatalogRecord} (h : processFile entries cat fn bd = .ok r) : r.filename = fn := by
  unfold processFile at h
  cases hr : readFileSync entries fn with
  | error e => rw [hr] at h; exact absurd h (by simp)
  | ok content => rw [hr] at h; cases h; rfl

/-- Processing a readable file succeeds with the record built from its
parsed front matter. -/
theorem processFile_of_file {entries : List (String × Entry)} {cat fn bd c : String}
    (h : lookupKV fn entries = some (.file c)) :
    processFile entries cat fn bd = .ok (mkRecord cat fn (parseFrontMatter c) bd) := by
  unfold processFile readFileSync
  rw [h]

/-- Processing a name that resolves to a subdirectory throws `EISDIR`. -/
theorem processFile_of_dir {entries : List (String × Entry)} {cat fn bd : String}
    (h : lookupKV fn entries = some .dir) :
    processFile entries cat fn bd = .error "EISDIR" := by
  unfold processFile readFileSync
  rw [h]

/-- On a corpus of readable files, every category is processed without an
error. -/
theorem processCategory_ok_of_allReadable {fs : FS} {bd : String}
    (h : allReadableFiles fs = true) (c : String) :
    ∃ recs, processCategory fs bd c = .ok recs := by
  unfold processCategory
  cases hdir : lookupKV c fs.dirs with
  | none => exact ⟨[], rfl⟩
  | some entries =>
    have h2 : fs.dirs.all (fun p => p.2.all (fun e => entryIsFile e.2)) = true := h
    have hent : entries.all (fun e => entryIsFile e.2) = true :=
      lookupKV_all (q := fun es => es.all (fun e => entryIsFile e.2)) h2 hdir
    apply mapExcept_ok_of_forall
    intro fn hfn
    have hmem : fn ∈ entries.map Prod.fst := List.mem_of_mem_filter hfn
    obtain ⟨v, hv⟩ := lookupKV_isSome_of_mem hmem
    have hvf : entryIsFile v = true := lookupKV_all hent hv
    cases v with
    | file content => exact ⟨_, processFile_of_file hv⟩
    | dir => simp [entryIsFile] at hvf
    | unreadable => simp [entryIsFile] at hvf

/-- On a corpus of readable files, the whole index is built without an
error. -/
theorem buildIndex_ok_of_allReadable {fs : FS} {bd : String}
    (h : allReadableFiles fs = true) : ∃ idx, buildIndex fs bd = .ok idx := by
  unfold buildIndex
  apply mapExcept_ok_of_forall
  intro c _
  obtain ⟨recs, hrecs⟩ := @processCategory_ok_of_allReadable fs bd h c
  exact ⟨(c, recs), by unfold pairup; rw [hrecs]⟩

/-- On a corpus of readable files, the run reaches the final write. -/
theorem runScript_ok_of_allReadable {fs : FS} {bd : String}
    (h : allReadableFiles fs = true) : exceptOk (runScript fs bd) = true := by
  obtain ⟨idx, hidx⟩ := @buildIndex_ok_of_allReadable fs bd h
  unfold runScript
  rw [hidx]
  rfl

/-! ### Build-date independence (for the idempotence claim) -/

/-- An entry whose record can depend on the build date: a readable file
whose front matter lacks a truthy `created` value.  `fileHasCreated` holds
for every other entry. -/
def fileHasCreated : Entry → Bool
  | .file c =>
    (match lookupKV "created" (parseFrontMatter c) with
     | some v => truthy v
     | none => false)
  | _ => true

/-- Every readable file on disk supplies a truthy `created` value. -/
def allDocsHaveCreated (fs : FS) : Bool :=
  fs.dirs.all (fun p => p.2.all (fun e => fileHasCreated e.2))

/-- A record built from metadata with a truthy `created` value does not
depend on the build date. -/
theorem mkRecord_buildDate_indep {cat fn d1 d2 : String} {data : Metadata}
    (h : (match lookupKV "created" data with
          | some v => truthy v
          | none => false) = true) :
    mkRecord cat fn data d1 = mkRecord cat fn data d2 := by
  cases hl : lookupKV "created" data with
  | none => rw [hl] at h; exact absurd h (by simp)
  | some v =>
    rw [hl] at h
    have hv : truthy v = true := h
    unfold mkRecord
    rw [hl]
    simp [jsOr, hv]

/-- Processing one file of a `created`-complete directory does not depend
on the build date. -/
theorem processFile_buildDate_indep {entries : List (String × Entry)} {cat fn d1 d2 : String}
    (h : entries.all (fun e => fileHasCreated e.2) = true) :
    processFile entries cat fn d1 = processFile entries cat fn d2 := by
  unfold processFile
  cases hr : readFileSync entries fn with
  | error e => rfl
  | ok content =>
    have hfile : lookupKV fn entries = some (.file content) := readFileSync_ok hr
    have hfc : fileHasCreated (.file content) = true :=
      lookupKV_all (q := fileHasCreated) h hfile
    have hfc2 : (match lookupKV "created" (parseFrontMatter content) with
        | some v => truthy v
        | none => false) = true := hfc
    show Except.ok (mkRecord cat fn (parseFrontMatter content) d1) =
      Except.ok (mkRecord cat fn (parseFrontMatter content) d2)
    rw [mkRecord_buildDate_indep hfc2]

/-- Processing a category of a `created`-complete corpus does not depend
on the build date. -/
theorem processCategory_buildDate_indep {fs : FS} {d1 d2 : String}
    (h : allDocsHaveCreated fs = true) (c : String) :
    processCategory fs d1 c = processCategory fs d2 c := by
  unfold processCategory
  cases hdir : lookupKV c fs.dirs with
  | none => rfl
  | some entries =>
    have h2 : fs.dirs.all (fun p => p.2.all (fun e => fileHasCreated e.2)) = true := h
    have hent : entries.all (fun e => fileHasCreated e.2) = true :=
      lookupKV_all (q := fun es => es.all (fun e => fileHasCreated e.2)) h2 hdir
    exact mapExcept_congr (fun fn _ => processFile_buildDate_indep hent)

/-- On a `created`-complete corpus, the whole run does not depend on the
build date. -/
theorem runScript_buildDate_indep {fs : FS} {d1 d2 : String}
    (h : allDocsHaveCreated fs = true) :
    runScript fs d1 = runScript fs d2 := by
  have hidx : buildIndex fs d1 = buildIndex fs d2 := by
    unfold buildIndex
    exact mapExcept_congr (fun c _ => by
      unfold pairup
      rw [processCategory_buildDate_indep h c])
  unfold runScript
  rw [hidx]

/-! ### The claims -/

/-- Claim C1 (spec-modelled extractor): a malformed front-matter header —
missing closing marker or an unparseable line — does not crash the run:
the metadata for that file degrades to the empty mapping, its record is
built from full defaults, and a run over readable files always reaches the
final write. -/
theorem c1_malformed_header_degrades (content cat fn bd : String) (fs : FS)
    (hm : malformedHeader content = true) (hr : allReadableFiles fs = true) :
    parseFrontMatter content = [] ∧
    mkRecord cat fn (parseFrontMatter content) bd =
      ⟨.str (jsReplaceFirst fn ".md"), .str "No description provided", fn,
        cat ++ "/" ++ fn, cat, .str "Unknown", .str bd, .list []⟩ ∧
    exceptOk (runScript fs bd) = true := by
  have hparse : parseFrontMatter content = [] := by
    unfold malformedHeader at hm
    rw [Bool.and_eq_true] at hm
    have hm2 := hm.2
    unfold parseFrontMatter
    rw [if_pos hm.1]
    cases htc : takeUntilClose (splitChar '\n' (content.data.drop 4)) with
    | none => rfl
    | some ls =>
      rw [htc] at hm2
      have hm3 : (parseLines ls).isNone = true := hm2
      show (match parseLines ls with
        | some kvs => kvs
        | none => []) = []
      cases hpl : parseLines ls with
      | none => rfl
      | some kvs => rw [hpl] at hm3; exact absurd hm3 (by simp)
  refine ⟨hparse, ?_, runScript_ok_of_allReadable hr⟩
  rw [hparse]
  rfl

/-- Witness for C1 at a header whose line `title X` has no colon. -/
theorem c1_witness :
    parseFrontMatter "---\ntitle X\n---\nbody" = [] ∧
    mkRecord "prompts" "bad.md" (parseFrontMatter "---\ntitle X\n---\nbody") "2026-10-12" =
      ⟨.str "bad", .str "No description provided", "bad.md", "prompts/bad.md",
        "prompts", .str "Unknown", .str "2026-10-12", .list []⟩ ∧
    exceptOk (runScript
      ⟨[("prompts", [("bad.md", .file "---\ntitle X\n---\nbody")])]⟩ "2026-10-12") = true :=
  c1_malformed_header_degrades "---\ntitle X\n---\nbody" "prompts" "bad.md" "2026-10-12"
    ⟨[("prompts", [("bad.md", .file "---\ntitle X\n---\nbody")])]⟩ (by decide) (by decide)

/-- Claim C2 counterexample: the file `a.mdx.md` is scanned (its name ends
in `.md`) and has no front matter, but its record title is `ax.md` — the
first occurrence of `.md` removed — not `a.mdx`, the filename with the
extension suffix removed. -/
theorem c2_counterexample :
    jsEndsWith "a.mdx.md" ".md" = true ∧
    (mkRecord "prompts" "a.mdx.md" (parseFrontMatter "hello") "2026-10-12").title =
      MValue.str "ax.md" ∧
    MValue.str "ax.md" ≠ MValue.str "a.mdx" := by decide

/-- Claim C2 (amended): the record title equals the front-matter title
verbatim when that key is present with a truthy value; when the key is
absent or its value is the empty string, the title is the filename with
the FIRST occurrence of the substring `.md` removed (which coincides with
stripping the extension suffix whenever `.md` occurs only as the suffix). -/
theorem c2_title_amended (cat fn bd : String) (data : Metadata) (v : MValue) :
    (lookupKV "title" data = some v → truthy v = true →
      (mkRecord cat fn data bd).title = v) ∧
    (lookupKV "title" data = none →
      (mkRecord cat fn data bd).title = .str (jsReplaceFirst fn ".md")) ∧
    (lookupKV "title" data = some (.str "") →
      (mkRecord cat fn data bd).title = .str (jsReplaceFirst fn ".md")) := by
  refine ⟨?_, ?_, ?_⟩
  · intro h ht
    simp [mkRecord, jsOr, h, ht]
  · intro h
    simp [mkRecord, jsOr, h]
  · intro h
    simp [mkRecord, jsOr, h, truthy]

/-- Witness for C2 (amended) at a present, non-empty title. -/
theorem c2_witness :
    (mkRecord "prompts" "x.md" [("title", MValue.str "X")] "2026-10-12").title =
      MValue.str "X" :=
  (c2_title_amended "prompts" "x.md" "2026-10-12" [("title", MValue.str "X")]
    (MValue.str "X")).1 (by decide) (by decide)

/-- Claim C3: the link and category fields are computed from the category
name and filename alone; no metadata — including front-matter keys named
`link` or `category` — can affect them. -/
theorem c3_link_category (cat fn bd : String) (data : Metadata) :
    (mkRecord cat fn data bd).link = cat ++ "/" ++ fn ∧
    (mkRecord cat fn data bd).category = cat :=
  ⟨rfl, rfl⟩

/-- Claim C4 counterexample: the same corpus run at two build dates gives
different output bytes, and the difference is the per-record `created`
field (there is no top-level timestamp in this configuration). -/
theorem c4_counterexample :
    writtenOutput ⟨[("prompts", [("a.md", .file "hello")])]⟩ "2026-01-01" ≠
      writtenOutput ⟨[("prompts", [("a.md", .file "hello")])]⟩ "2026-01-02" ∧
    (mkRecord "prompts" "a.md" (parseFrontMatter "hello") "2026-01-01").created =
      MValue.str "2026-01-01" ∧
    (mkRecord "prompts" "a.md" (parseFrontMatter "hello") "2026-01-02").created =
      MValue.str "2026-01-02" := by decide

/-- Claim C4 (amended): the run is a pure function of the corpus and the
build date, so two runs with the same build date are byte-identical; and
when every document supplies a truthy `created` value the output is
byte-identical across any two build dates.  Otherwise the per-record
`created` default — not a top-level timestamp, which this configuration
does not emit — may differ between runs on different dates. -/
theorem c4_idempotence_amended (fs : FS) (d1 d2 : String)
    (h : allDocsHaveCreated fs = true) :
    runScript fs d1 = runScript fs d2 ∧
    writtenOutput fs d1 = writtenOutput fs d2 := by
  have hr : runScript fs d1 = runScript fs d2 := runScript_buildDate_indep h
  refine ⟨hr, ?_⟩
  unfold writtenOutput
  rw [hr]

/-- Witness for C4 (amended) on a corpus whose one document carries
`created`. -/
theorem c4_witness :
    runScript ⟨[("prompts", [("a.md", .file "---\ncreated: 2020-05-05\n---\nbody")])]⟩
        "2026-01-01" =
      runScript ⟨[("prompts", [("a.md", .file "---\ncreated: 2020-05-05\n---\nbody")])]⟩
        "2026-01-02" ∧
    writtenOutput ⟨[("prompts", [("a.md", .file "---\ncreated: 2020-05-05\n---\nbody")])]⟩
        "2026-01-01" =
      writtenOutput ⟨[("prompts", [("a.md", .file "---\ncreated: 2020-05-05\n---\nbody")])]⟩
        "2026-01-02" :=
  c4_idempotence_amended
    ⟨[("prompts", [("a.md", .file "---\ncreated: 2020-05-05\n---\nbody")])]⟩
    "2026-01-01" "2026-01-02" (by decide)

/-- Claim C5 counterexample: a front-matter `description` key present with
the empty-string value still yields the placeholder — the JS `||` default
treats the empty string as absent, contradicting the claim that the
placeholder appears only when the key is absent. -/
theorem c5_counterexample :
    lookupKV "description" (parseFrontMatter "---\ndescription:\n---\nbody") =
      some (MValue.str "") ∧
    (mkRecord "prompts" "x.md" (parseFrontMatter "---\ndescription:\n---\nbody")
        "2026-10-12").description = MValue.str "No description provided" ∧
    MValue.str "No description provided" ≠ MValue.str "" := by decide

/-- Claim C5 (amended): the record description equals the front-matter
value when the key is present with a truthy (non-empty) value, and equals
the placeholder both when the key is absent and when its value is the
empty string. -/
theorem c5_description_amended (cat fn bd : String) (data : Metadata) (v : MValue) :
    (lookupKV "description" data = some v → truthy v = true →
      (mkRecord cat fn data bd).description = v) ∧
    (lookupKV "description" data = none →
      (mkRecord cat fn data bd).description = .str "No description provided") ∧
    (lookupKV "description" data = some (.str "") →
      (mkRecord cat fn data bd).description = .str "No description provided") := by
  refine ⟨?_, ?_, ?_⟩
  · intro h ht
    simp [mkRecord, jsOr, h, ht]
  · intro h
    simp [mkRecord, jsOr, h]
  · intro h
    simp [mkRecord, jsOr, h, truthy]

/-- Witness for C5 (amended) at a present, non-empty description. -/
theorem c5_witness :
    (mkRecord "prompts" "x.md" [("description", MValue.str "desc")] "2026-10-12").description =
      MValue.str "desc" :=
  (c5_description_amended "prompts" "x.md" "2026-10-12" [("description", MValue.str "desc")]
    (MValue.str "desc")).1 (by decide) (by decide)

/-- The catalog produced when nothing configured exists on disk: every
category key present, each with an empty array. -/
def emptyCatalog : Catalog :=
  [("standards", []), ("templates", []), ("prompts", []), ("reviews", []),
   ("architecture", [])]

/-- Claim C6: a configured category whose directory is absent does not
fail — its scan yields the empty list — and any successfully written
catalog still contains that category key mapped to the empty array. -/
theorem c6_missing_dir (fs : FS) (bd c : String) (idx : Catalog)
    (hc : c ∈ categories) (hmiss : lookupKV c fs.dirs = none)
    (hidx : buildIndex fs bd = .ok idx) :
    processCategory fs bd c = .ok [] ∧ lookupKV c idx = some [] := by
  have hpc : processCategory fs bd c = .ok [] := by
    unfold processCategory
    rw [hmiss]
  refine ⟨hpc, ?_⟩
  unfold buildIndex at hidx
  obtain ⟨r, hr, hl⟩ := mapExcept_pairup_lookup hidx hc
  rw [hpc] at hr
  cases hr
  exact hl

/-- Witness for C6 on an empty disk. -/
theorem c6_witness :
    processCategory ⟨[]⟩ "2026-10-12" "prompts" = .ok [] ∧
    lookupKV "prompts" emptyCatalog = some [] :=
  c6_missing_dir ⟨[]⟩ "2026-10-12" "prompts" emptyCatalog (by decide) (by decide)
    (by decide)

/-- Claim C7 counterexample: an immediate subdirectory named `sub.md` in
an existing category directory passes the name filter, the subsequent
read throws `EISDIR`, the run aborts and nothing is written — refuting
the claim that such a subdirectory never causes a failure. -/
theorem c7_counterexample :
    jsEndsWith "sub.md" ".md" = true ∧
    exceptOk (runScript ⟨[("prompts", [("sub.md", .dir)])]⟩ "2026-10-12") = false ∧
    writtenOutput ⟨[("prompts", [("sub.md", .dir)])]⟩ "2026-10-12" = none := by decide

/-- Claim C7 (amended): the scanner selects exactly the immediate entries
whose names end in `.md` (case-sensitive suffix match, non-recursive); an
entry not ending in `.md` — in particular any ordinarily named
subdirectory — is ignored, and when every selected name resolves to a
readable file the category yields exactly one record per selected name in
enumeration order; but a subdirectory whose name ends in `.md` is
selected, and its read fails fatally instead of being ignored. -/
theorem c7_scan_amended (fs : FS) (bd cat : String)
    (entries : List (String × Entry)) (h : lookupKV cat fs.dirs = some entries) :
    ((∀ fn ∈ selected entries, isFileEntry (lookupKV fn entries) = true) →
      ∃ recs, processCategory fs bd cat = .ok recs ∧
        recs.map CatalogRecord.filename = selected entries) ∧
    (∀ fn ∈ selected entries, lookupKV fn entries = some Entry.dir →
      exceptOk (processCategory fs bd cat) = false) := by
  have hpc : processCategory fs bd cat =
      mapExcept (fun filename => processFile entries cat filename bd)
        (selected entries) := by
    unfold processCategory
    rw [h]
  constructor
  · intro hok
    have hall : ∀ fn ∈ selected entries,
        ∃ b, processFile entries cat fn bd = .ok b := by
      intro fn hfn
      have hv := hok fn hfn
      cases hl : lookupKV fn entries with
      | none => rw [hl] at hv; simp [isFileEntry] at hv
      | some e =>
        cases e with
        | file c => exact ⟨_, processFile_of_file hl⟩
        | dir => rw [hl] at hv; simp [isFileEntry] at hv
        | unreadable => rw [hl] at hv; simp [isFileEntry] at hv
    obtain ⟨recs, hrecs⟩ := mapExcept_ok_of_forall hall
    refine ⟨recs, by rw [hpc]; exact hrecs, ?_⟩
    exact map_eq_of_forall2 (fun a b hab => processFile_filename hab)
      (mapExcept_ok_forall2 hrecs)
  · intro fn hfn hdirfn
    rw [hpc]
    cases hres : mapExcept (fun filename => processFile entries cat filename bd)
        (selected entries) with
    | error e => rfl
    | ok recs =>
      obtain ⟨b, hb⟩ := mapExcept_mem_ok hres hfn
      rw [processFile_of_dir hdirfn] at hb
      exact absurd hb (by simp)

/-- Witness for C7 (amended): `B.MD` and the subdirectory `notes` are
ignored, `a.md` and `b.md` produce one record each in enumeration order. -/
theorem c7_witness :
    ∃ recs,
      processCategory
          ⟨[("prompts",
             [("a.md", .file "---\ntitle: A\n---\nbody"), ("notes", .dir),
              ("B.MD", .file "x"), ("b.md", .file "plain")])]⟩ "2026-10-12" "prompts" =
        .ok recs ∧
      recs.map CatalogRecord.filename =
        selected
          [("a.md", .file "---\ntitle: A\n---\nbody"), ("notes", .dir),
           ("B.MD", .file "x"), ("b.md", .file "plain")] :=
  (c7_scan_amended
    ⟨[("prompts",
       [("a.md", .file "---\ntitle: A\n---\nbody"), ("notes", .dir),
        ("B.MD", .file "x"), ("b.md", .file "plain")])]⟩ "2026-10-12" "prompts"
    [("a.md", .file "---\ntitle: A\n---\nbody"), ("notes", .dir),
     ("B.MD", .file "x"), ("b.md", .file "plain")] (by decide)).1 (by decide)

/-- Claim C8: a failing document read — a selected name resolving to an
unreadable entry or a subdirectory — aborts the whole run with a
propagated error, and `index.json` is not written: the output is all or
nothing. -/
theorem c8_read_failure_aborts (fs : FS) (bd cat fn : String)
    (entries : List (String × Entry)) (hcat : cat ∈ categories)
    (hdir : lookupKV cat fs.dirs = some entries) (hfn : fn ∈ selected entries)
    (hbad : exceptOk (readFileSync entries fn) = false) :
    exceptOk (runScript fs bd) = false ∧ writtenOutput fs bd = none := by
  have hpf : exceptOk (processFile entries cat fn bd) = false := by
    unfold processFile
    cases hr : readFileSync entries fn with
    | error e => rfl
    | ok content => rw [hr] at hbad; exact absurd hbad (by simp [exceptOk])
  have hpc : exceptOk (processCategory fs bd cat) = false := by
    unfold processCategory
    rw [hdir]
    show exceptOk (mapExcept (fun filename => processFile entries cat filename bd)
      (selected entries)) = false
    cases hres : mapExcept (fun filename => processFile entries cat filename bd)
        (selected entries) with
    | error e => rfl
    | ok recs =>
      obtain ⟨b, hb⟩ := mapExcept_mem_ok hres hfn
      rw [hb] at hpf
      exact absurd hpf (by simp [exceptOk])
  have hbi : exceptOk (buildIndex fs bd) = false := by
    unfold buildIndex
    cases hres : mapExcept (pairup (processCategory fs bd)) categories with
    | error e => rfl
    | ok idx =>
      obtain ⟨b, hb⟩ := mapExcept_mem_ok hres hcat
      unfold pairup at hb
      cases hgc : processCategory fs bd cat with
      | error e => rw [hgc] at hb; exact absurd hb (by simp)
      | ok recs => rw [hgc] at hpc; exact absurd hpc (by simp [exceptOk])
  cases hbi2 : buildIndex fs bd with
  | ok idx => rw [hbi2] at hbi; exact absurd hbi (by simp [exceptOk])
  | error e =>
    constructor
    · unfold runScript
      rw [hbi2]
      rfl
    · unfold writtenOutput runScript
      rw [hbi2]

/-- Witness for C8 at an unreadable `a.md`. -/
theorem c8_witness :
    exceptOk (runScript ⟨[("prompts", [("a.md", .unreadable)])]⟩ "2026-10-12") = false ∧
    writtenOutput ⟨[("prompts", [("a.md", .unreadable)])]⟩ "2026-10-12" = none :=
  c8_read_failure_aborts ⟨[("prompts", [("a.md", .unreadable)])]⟩ "2026-10-12"
    "prompts" "a.md" [("a.md", .unreadable)] (by decide) (by decide) (by decide)
    (by decide)

/-- Claim C9: the printed total equals the sum of the per-category array
lengths of the written catalog, and each scanned category contributes
exactly one record per selected file, in filesystem enumeration order. -/
theorem c9_count_and_order (fs : FS) (bd out msg cat : String) (idx : Catalog)
    (entries : List (String × Entry)) (hidx : buildIndex fs bd = .ok idx)
    (hrun : runScript fs bd = .ok (out, msg)) (hcat : cat ∈ categories)
    (hdir : lookupKV cat fs.dirs = some entries) :
    msg = "Generated index.json with " ++
      toString ((idx.map (fun p => p.2.length)).sum) ++ " total items" ∧
    ∃ recs, lookupKV cat idx = some recs ∧
      recs.map CatalogRecord.filename = selected entries := by
  constructor
  · unfold runScript at hrun
    rw [hidx] at hrun
    have hpair : (out, msg) = (serializeIndex idx,
        "Generated index.json with " ++
          toString ((idx.map Prod.snd).flatten.length) ++ " total items") := by
      cases hrun
      rfl
    have hmsg : msg = "Generated index.json with " ++
        toString ((idx.map Prod.snd).flatten.length) ++ " total items" :=
      congrArg Prod.snd hpair
    rw [hmsg, List.length_flatten, List.map_map]
    rfl
  · unfold buildIndex at hidx
    obtain ⟨recs, hr, hl⟩ := mapExcept_pairup_lookup hidx hcat
    unfold processCategory at hr
    rw [hdir] at hr
    exact ⟨recs, hl,
      map_eq_of_forall2 (fun a b hab => processFile_filename hab)
        (mapExcept_ok_forall2 hr)⟩

/-- The corpus, catalog and output strings of the C9 witness run. -/
def fsW9 : FS :=
  ⟨[("prompts",
     [("a.md", .file "---\ntitle: A\n---\nbody"), ("b.md", .file "plain")])]⟩

/-- The catalog the C9 witness run writes. -/
def idxW9 : Catalog :=
  [("standards", []), ("templates", []),
   ("prompts",
    [mkRecord "prompts" "a.md" [("title", .str "A")] "2026-10-12",
     mkRecord "prompts" "b.md" [] "2026-10-12"]),
   ("reviews", []), ("architecture", [])]

/-- Witness for C9 on a two-document corpus. -/
theorem c9_witness :
    "Generated index.json with 2 total items" = "Generated index.json with " ++
      toString ((idxW9.map (fun p => p.2.length)).sum) ++ " total items" ∧
    ∃ recs, lookupKV "prompts" idxW9 = some recs ∧
      recs.map CatalogRecord.filename =
        selected [("a.md", .file "---\ntitle: A\n---\nbody"), ("b.md", .file "plain")] :=
  c9_count_and_order fsW9 "2026-10-12" (serializeIndex idxW9)
    "Generated index.json with 2 total items" "prompts" idxW9
    [("a.md", .file "---\ntitle: A\n---\nbody"), ("b.md", .file "plain")]
    (by decide) (by decide) (by decide) (by decide)

/-- Claim C10: whatever the state of the disk, any successfully written
catalog has exactly the five configured category keys, in declaration
order — no extra directory ever appears, no configured key is ever
missing. -/
theorem c10_keys_fixed (fs : FS) (bd : String) (idx : Catalog)
    (h : buildIndex fs bd = .ok idx) :
    idx.map Prod.fst = ["standards", "templates", "prompts", "reviews", "architecture"] := by
  unfold buildIndex at h
  exact map_eq_of_forall2 (fun a b hab => pairup_fst hab) (mapExcept_ok_forall2 h)

/-- Witness for C10 on a disk containing only an unconfigured `junk`
directory, which does not appear in the catalog. -/
theorem c10_witness :
    emptyCatalog.map Prod.fst =
      ["standards", "templates", "prompts", "reviews", "architecture"] :=
  c10_keys_fixed ⟨[("junk", [("z.md", .file "x")])]⟩ "2026-10-12" emptyCatalog
    (by decide)

end GenIndex
